import Mathlib

/-!
Shallow embedding of `pf2.py`, a reader for the PF2 bitmap font
container format, together with theorems about its behaviour.

Python bytes are modelled as `List Nat` (each element a byte value
0..255 in any run of the real program); a Python binary file object or
`BytesIO` is modelled as a `ByteStream` (contents, cursor, closed
flag).  Python exceptions (`IndexError`, `KeyError`, `ValueError`,
`AttributeError`) become an explicit error type, and fallible
operations return `Except Err _`.
-/

abbrev Bytes := List Nat

/-- `uint32be` from pf2.py.  NOTE: the source really shifts `b[0]` by 32
bits (`b[0] << 32`), not 24; the translation keeps that behaviour.
`none` models the `IndexError` raised when fewer than 4 bytes are given. -/
def uint32be (b : Bytes) : Option Nat :=
  match b.get? 0, b.get? 1, b.get? 2, b.get? 3 with
  | some b0, some b1, some b2, some b3 =>
      some ((b0 <<< 32) + (b1 <<< 16) + (b2 <<< 8) + b3)
  | _, _, _, _ => none

/-- `int32be` from pf2.py: `u - ((u >> 31 & 0b1) << 32)`. -/
def int32be (b : Bytes) : Option Int :=
  match uint32be b with
  | some u => some ((u : Int) - ((((u >>> 31) &&& 1) <<< 32 : Nat) : Int))
  | none => none

/-- `uint16be` from pf2.py: `(b[0] << 8) + b[1]`. -/
def uint16be (b : Bytes) : Option Nat :=
  match b.get? 0, b.get? 1 with
  | some b0, some b1 => some ((b0 <<< 8) + b1)
  | _, _ => none

/-- `int16be` from pf2.py: `u - ((u >> 15 & 0b1) << 16)`. -/
def int16be (b : Bytes) : Option Int :=
  match uint16be b with
  | some u => some ((u : Int) - ((((u >>> 15) &&& 1) <<< 16 : Nat) : Int))
  | none => none

/-- A Python binary stream: underlying bytes, cursor position, closed flag. -/
structure ByteStream where
  data : Bytes
  pos : Nat
  closed : Bool
deriving Repr, DecidableEq

/-- `stream.read n`: return up to `n` bytes from the cursor and advance
the cursor by the number of bytes actually returned. -/
def ByteStream.read (s : ByteStream) (n : Nat) : Bytes × ByteStream :=
  let chunk := (s.data.drop s.pos).take n
  (chunk, { s with pos := s.pos + chunk.length })

/-- `stream.read()` with no argument: read all remaining bytes. -/
def ByteStream.readAll (s : ByteStream) : Bytes × ByteStream :=
  s.read s.data.length

/-- `stream.tell()`. -/
def ByteStream.tell (s : ByteStream) : Nat := s.pos

/-- `stream.seek(k)` (absolute).  A negative target or a closed stream
raises (`OSError`/`ValueError` in Python), modelled as `none`; seeking
past the end succeeds. -/
def ByteStream.seek (s : ByteStream) (k : Int) : Option ByteStream :=
  if s.closed ∨ k < 0 then none else some { s with pos := k.toNat }

/-- A decoded PF2 character (class `Character` in pf2.py). -/
structure Character where
  width : Nat
  height : Nat
  x_offset : Int
  y_offset : Int
  device_width : Int
  bitmap_data : Bytes
deriving Repr, DecidableEq

/-- The Python exceptions the translated code can raise. -/
inductive Err where
  | indexError
  | keyError
  | valueError
  | attributeError
  | fuelOut
deriving Repr, DecidableEq

/-- Insert into an association list with Python-dict semantics:
replace the value if the key is present, else append. -/
def dinsert (d : List (Int × Nat × Int)) (k : Int) (v : Nat × Int) :
    List (Int × Nat × Int) :=
  match d with
  | [] => [(k, v)]
  | (k', v') :: rest =>
      if k' = k then (k, v) :: rest else (k', v') :: dinsert rest k v

/-- `dict.get`: the value stored for `k`, if any. -/
def dget (d : List (Int × Nat × Int)) (k : Int) : Option (Nat × Int) :=
  match d with
  | [] => none
  | (k', v') :: rest => if k' = k then some v' else dget rest k

/-- The `PF2` handle.  Fields that Python assigns only on some paths
are `Option`s; `none` models an attribute that was never set. -/
structure PF2 where
  is_pf2 : Bool
  missing_character_code : Nat
  in_memory : Bool
  font_name : Option Bytes
  family : Option Bytes
  weight : Option Bytes
  slant : Option Bytes
  point_size : Option Nat
  max_width : Option Nat
  max_height : Option Nat
  ascent : Option Nat
  descent : Option Nat
  character_index : Option (List (Int × Nat × Int))
  data_offset : Option Int
  data_io : Option ByteStream
deriving Repr, DecidableEq

def magicBytes : Bytes := [70, 73, 76, 69, 0, 0, 0, 4, 80, 70, 70, 50]
def chixTag : Bytes := [67, 72, 73, 88]
def dataTag : Bytes := [68, 65, 84, 65]
def nameTag : Bytes := [78, 65, 77, 69]
def famiTag : Bytes := [70, 65, 77, 73]
def weigTag : Bytes := [87, 69, 73, 71]
def slanTag : Bytes := [83, 76, 65, 78]
def ptszTag : Bytes := [80, 84, 83, 90]
def maxwTag : Bytes := [77, 65, 88, 87]
def maxhTag : Bytes := [77, 65, 88, 72]
def asceTag : Bytes := [65, 83, 67, 69]
def descTag : Bytes := [68, 69, 83, 67]

/-- The record-reading loop of the `CHIX` branch of `PF2.__init__`:
read `n` records of 4 + 1 + 4 bytes each, inserting each into the
index (so a repeated code point keeps the last record). -/
def readIndex : Nat → ByteStream → List (Int × Nat × Int) →
    Except Err (List (Int × Nat × Int) × ByteStream)
  | 0, s, d => .ok (d, s)
  | n + 1, s, d =>
    let r1 := s.read 4
    match int32be r1.1 with
    | none => .error .indexError
    | some code_point =>
      let r2 := r1.2.read 1
      match r2.1.get? 0 with
      | none => .error .indexError
      | some compression =>
        let r3 := r2.2.read 4
        match int32be r3.1 with
        | none => .error .indexError
        | some offset =>
            readIndex n r3.2 (dinsert d code_point (compression, offset))

/-- The metadata dispatch at the bottom of the scan loop of
`PF2.__init__`: the `if name == b'NAME' ... elif ...` chain, applied
to the payload `data` just read.  Unknown tags leave the handle
unchanged (the payload is read and discarded). -/
def applyMeta (name data : Bytes) (self : PF2) : Except Err PF2 :=
  if name = nameTag then .ok { self with font_name := some data }
  else if name = famiTag then .ok { self with family := some data }
  else if name = weigTag then .ok { self with weight := some data }
  else if name = slanTag then .ok { self with slant := some data }
  else if name = ptszTag then
    match uint16be data with
    | none => .error .indexError
    | some v => .ok { self with point_size := some v }
  else if name = maxwTag then
    match uint16be data with
    | none => .error .indexError
    | some v => .ok { self with max_width := some v }
  else if name = maxhTag then
    match uint16be data with
    | none => .error .indexError
    | some v => .ok { self with max_height := some v }
  else if name = asceTag then
    match uint16be data with
    | none => .error .indexError
    | some v => .ok { self with ascent := some v }
  else if name = descTag then
    match uint16be data with
    | none => .error .indexError
    | some v => .ok { self with descent := some v }
  else .ok self

/-- The section-scanning `while True` loop of `PF2.__init__`, with fuel
to make the recursion structural (the fuel supplied by `pf2Init` is
always sufficient, since every iteration that continues consumes 8
bytes of the stream). -/
def scanLoop (rm : Bool) : Nat → PF2 → ByteStream → Except Err PF2
  | 0, _, _ => .error .fuelOut
  | fuel + 1, self, s =>
    let rn := s.read 4
    let rl := rn.2.read 4
    match int32be rl.1 with
    | none => .error .indexError
    | some data_length =>
      if rn.1 = chixTag then
        match readIndex (data_length.fdiv 9).toNat rl.2 [] with
        | .error e => .error e
        | .ok (d, s') =>
            scanLoop rm fuel { self with character_index := some d } s'
      else if rn.1 = dataTag then
        if rm then
          let ra := rl.2.readAll
          .ok { self with
                  data_io := some ⟨ra.1, 0, false⟩,
                  data_offset := some (-(ra.2.tell : Int)) }
        else
          .ok { self with data_io := some rl.2, data_offset := some 0 }
      else
        -- int32be never returns a negative value (its sign-bit test is
        -- against bit 31 of a quantity whose bit 31 is 0 for byte
        -- input), so `.toNat` is exact here.
        let rd := rl.2.read data_length.toNat
        match applyMeta rn.1 rd.1 self with
        | .error e => .error e
        | .ok self' => scanLoop rm fuel self' rd.2

/-- The handle as it stands right after the first three assignments of
`PF2.__init__` (magic not yet checked): every other attribute unset. -/
def initialPF2 (rm : Bool) (mc : Nat) : PF2 :=
  { is_pf2 := true
    missing_character_code := mc
    in_memory := rm
    font_name := none
    family := none
    weight := none
    slant := none
    point_size := none
    max_width := none
    max_height := none
    ascent := none
    descent := none
    character_index := none
    data_offset := none
    data_io := none }

/-- `PF2.__init__`: open a font whose file contents are `fileData`.
`read_to_mem` is the `read_to_mem` keyword, `mc` the code point of the
`missing_character` argument. -/
def pf2Init (fileData : Bytes) (read_to_mem : Bool) (mc : Nat) :
    Except Err PF2 :=
  let file : ByteStream := ⟨fileData, 0, false⟩
  let rm12 := file.read 12
  if rm12.1 = magicBytes then
    scanLoop read_to_mem (fileData.length + 1) (initialPF2 read_to_mem mc) rm12.2
  else
    .ok { initialPF2 read_to_mem mc with is_pf2 := false }

/-- The read/decode tail of `PF2.get_char` after the seek: five 2-byte
header reads then the bitmap read, operating on the byte suffix that
starts at the seek target (a Python stream read depends only on that
suffix). -/
def decodeGlyph (l : Bytes) : Except Err Character :=
  match uint16be (l.take 2) with
  | none => .error .indexError
  | some width =>
    match uint16be ((l.drop 2).take 2) with
    | none => .error .indexError
    | some height =>
      match int16be ((l.drop 4).take 2) with
      | none => .error .indexError
      | some x_offset =>
        match int16be ((l.drop 6).take 2) with
        | none => .error .indexError
        | some y_offset =>
          match int16be ((l.drop 8).take 2) with
          | none => .error .indexError
          | some device_width =>
            .ok { width := width
                  height := height
                  x_offset := x_offset
                  y_offset := y_offset
                  device_width := device_width
                  bitmap_data := (l.drop 10).take ((width * height + 7) / 8) }

/-- `PF2.get_char` (also bound as `__getitem__`): look the code point
up in the index, fall back to the missing character, seek to
`offset + data_offset`, and decode the glyph record there. -/
def get_char (self : PF2) (char_point : Nat) : Except Err Character :=
  match self.character_index with
  | none => .error .attributeError
  | some idx =>
    match
      (match dget idx (char_point : Int) with
       | some i => some i
       | none => dget idx (self.missing_character_code : Int)) with
    | none => .error .keyError
    | some info =>
      match self.data_io, self.data_offset with
      | some dio, some doff =>
        match dio.seek (info.2 + doff) with
        | none => .error .valueError
        | some d0 => decodeGlyph (d0.data.drop d0.pos)
      | _, _ => .error .attributeError

/-- `PF2.close`: close the data stream unless the font was read to
memory.  Accessing the never-set `data_io` attribute of an invalid
handle raises `AttributeError`. -/
def PF2.close (self : PF2) : Except Err PF2 :=
  if self.in_memory then .ok self
  else
    match self.data_io with
    | none => .error .attributeError
    | some d => .ok { self with data_io := some { d with closed := true } }

/-- Decidable equality for `Except`, needed to settle concrete runs of
the translated code by `decide`. -/
def exceptDecEq {ε α : Type} [DecidableEq ε] [DecidableEq α] :
    DecidableEq (Except ε α)
  | .ok a, .ok b =>
    if h : a = b then isTrue (h ▸ rfl) else isFalse (fun hh => h (by cases hh; rfl))
  | .error a, .error b =>
    if h : a = b then isTrue (h ▸ rfl) else isFalse (fun hh => h (by cases hh; rfl))
  | .ok _, .error _ => isFalse (fun hh => by cases hh)
  | .error _, .ok _ => isFalse (fun hh => by cases hh)

instance {ε α : Type} [DecidableEq ε] [DecidableEq α] :
    DecidableEq (Except ε α) := exceptDecEq

/-! ## Concrete font files used as inputs -/

/-- A minimal valid PF2 file: magic, one-entry `CHIX` (code point 65,
offset 37), empty-length `DATA` header, then one glyph record at file
offset 37 (width 1, height 1, device width 1, one bitmap byte). -/
def c2file : Bytes :=
  magicBytes ++ chixTag ++ [0, 0, 0, 9] ++ [0, 0, 0, 65, 0, 0, 0, 0, 37] ++
  dataTag ++ [0, 0, 0, 0] ++ [0, 1, 0, 1, 0, 0, 0, 0, 0, 1, 128]

/-- A valid PF2 file whose single index entry (code point 66) has
offset 45: the glyph at file offset 45 differs from the glyph at
offset 45 of the data section (file offset 82). -/
def c3file : Bytes :=
  magicBytes ++ chixTag ++ [0, 0, 0, 9] ++ [0, 0, 0, 66, 0, 0, 0, 0, 45] ++
  dataTag ++ [0, 0, 0, 0] ++
  [9, 9, 9, 9, 9, 9, 9, 9] ++
  [0, 1, 0, 1, 0, 0, 0, 0, 0, 1, 255] ++
  List.replicate 26 7 ++
  [0, 2, 0, 2, 0, 0, 0, 0, 0, 2, 240]

/-- A PF2 file truncated inside a glyph's bitmap: the glyph record at
file offset 37 declares width 1 and height 2 (bitmap length 1) but the
file ends right after the 10-byte glyph header. -/
def c8file : Bytes :=
  magicBytes ++ chixTag ++ [0, 0, 0, 9] ++ [0, 0, 0, 65, 0, 0, 0, 0, 37] ++
  dataTag ++ [0, 0, 0, 0] ++ [0, 1, 0, 2, 0, 0, 0, 0, 0, 0]

/-! ## Claim theorems -/

/-- C1: the byte codec does NOT decode 32-bit big-endian integers as
claimed.  `uint32be` shifts the first byte by 32 bits instead of 24,
so `uint32be [1,0,0,0]` is `2^32`, not `2^24`; consequently bit 31 of
its result is never set for byte input and `int32be [128,0,0,0]` is
the positive `2^39` rather than `-2^31`.  The 16-bit pair behaves as
claimed on the same shape of inputs. -/
theorem uint32be_bug :
    uint32be [1, 0, 0, 0] = some 4294967296 ∧
    uint32be [1, 0, 0, 0] ≠ some 16777216 ∧
    int32be [128, 0, 0, 0] = some 549755813888 ∧
    int32be [128, 0, 0, 0] ≠ some (-2147483648) ∧
    uint16be [1, 0] = some 256 ∧
    int16be [128, 0] = some (-32768) := by
  decide

/-- C2: buffered and streaming modes do NOT return identical glyphs.
On `c2file`, streaming lookup of code point 65 returns the glyph, but
the buffered handle records `data_offset = -file.tell()` only after
`file.read()` has consumed the rest of the file, i.e. `-48` (the file
size) instead of `-37` (the data payload start), so the lookup seeks
to `37 - 48 < 0` and fails with a negative-seek error. -/
theorem buffered_streaming_diverge :
    (pf2Init c2file false 63).bind (fun h => get_char h 65)
      = .ok ⟨1, 1, 0, 0, 1, [128]⟩ ∧
    (pf2Init c2file true 63).bind (fun h => get_char h 65)
      = .error .valueError := by
  decide

/-- C3 counterexample: index offsets are not interpreted relative to
the start of the data section.  On `c3file`, the entry for code point
66 has offset 45; the code reads the glyph at byte 45 of the FILE
(width 1), while the glyph record at byte 45 of the data section (file
byte 82) is a different one (width 2). -/
theorem offsets_not_data_relative :
    (pf2Init c3file false 63).bind (fun h => get_char h 66)
      = .ok ⟨1, 1, 0, 0, 1, [255]⟩ ∧
    decodeGlyph ((c3file.drop 37).drop 45) = .ok ⟨2, 2, 0, 0, 2, [240]⟩ ∧
    (⟨1, 1, 0, 0, 1, [255]⟩ : Character) ≠ ⟨2, 2, 0, 0, 2, [240]⟩ := by
  decide

/-- C6: a `CHIX` record is NOT decoded as a big-endian code point.
The record `01 00 00 00 | 00 | 00 00 00 05` is inserted under key
`2^32` (the `uint32be` slip), not under the big-endian value `2^24`,
which the resulting index does not contain.  The structural part of
the claim (one 9-byte record consumed here) is visible in the
resulting stream position. -/
theorem chix_record_bug :
    readIndex 1 ⟨[1, 0, 0, 0, 0, 0, 0, 0, 5], 0, false⟩ []
      = .ok ([((4294967296 : Int), (0, (5 : Int)))],
             ⟨[1, 0, 0, 0, 0, 0, 0, 0, 5], 9, false⟩) ∧
    dget [((4294967296 : Int), (0, (5 : Int)))] 16777216 = none := by
  decide

/-- C8 counterexample: a short read of the bitmap bytes yields a
normally-returned glyph.  On `c8file` (which ends right after the
glyph header) the lookup returns a glyph whose `bitmap_data` is empty
even though `ceil(width*height/8) = 1` byte was requested. -/
theorem truncated_bitmap_glyph :
    (pf2Init c8file false 63).bind (fun h => get_char h 65)
      = .ok ⟨1, 2, 0, 0, 0, []⟩ ∧
    ([] : Bytes).length < (1 * 2 + 7) / 8 := by
  decide

/-! ## Helper lemmas -/

theorem int32be_short (b : Bytes) (h : b.length < 4) : int32be b = none := by
  rcases b with _ | ⟨x, _ | ⟨y, _ | ⟨z, _ | ⟨w, r⟩⟩⟩⟩
  · rfl
  · rfl
  · rfl
  · rfl
  · simp at h; omega

theorem int32be_some (x y z w : Nat) (r : Bytes) :
    int32be (x :: y :: z :: w :: r)
      = some ((((x <<< 32) + (y <<< 16) + (z <<< 8) + w : Nat) : Int) -
          ((((((x <<< 32) + (y <<< 16) + (z <<< 8) + w) >>> 31) &&& 1) <<< 32 : Nat) : Int)) := rfl

/-- Evaluating `decodeGlyph` on an input that holds the full 10-byte
header. -/
theorem decodeGlyph_cons (b0 b1 b2 b3 b4 b5 b6 b7 b8 b9 : Nat) (rest : Bytes) :
    decodeGlyph (b0 :: b1 :: b2 :: b3 :: b4 :: b5 :: b6 :: b7 :: b8 :: b9 :: rest)
      = .ok { width := b0 <<< 8 + b1
              height := b2 <<< 8 + b3
              x_offset := ((b4 <<< 8 + b5 : Nat) : Int) -
                ((((b4 <<< 8 + b5) >>> 15) &&& 1) <<< 16 : Nat)
              y_offset := ((b6 <<< 8 + b7 : Nat) : Int) -
                ((((b6 <<< 8 + b7) >>> 15) &&& 1) <<< 16 : Nat)
              device_width := ((b8 <<< 8 + b9 : Nat) : Int) -
                ((((b8 <<< 8 + b9) >>> 15) &&& 1) <<< 16 : Nat)
              bitmap_data := rest.take (((b0 <<< 8 + b1) * (b2 <<< 8 + b3) + 7) / 8) } := rfl

/-! ## Claim theorems, continued -/

/-- C4: a lookup miss falls back to the missing-character entry.  If
the handle's index has no entry for `cp` then: when the
missing-character code point has an entry, `get_char` on `cp` returns
exactly what `get_char` on the missing character returns; when it has
none, the lookup fails with the dictionary `KeyError` and no glyph is
returned. -/
theorem lookup_fallback (h : PF2) (idx : List (Int × Nat × Int)) (cp : Nat)
    (hidx : h.character_index = some idx)
    (hmiss : dget idx (cp : Int) = none) :
    (∀ info, dget idx (h.missing_character_code : Int) = some info →
        get_char h cp = get_char h h.missing_character_code) ∧
    (dget idx (h.missing_character_code : Int) = none →
        get_char h cp = .error .keyError) := by
  constructor
  · intro info hinfo
    simp only [get_char, hidx, hmiss, hinfo]
  · intro hnone
    simp only [get_char, hidx, hmiss, hnone]

/-- A handle whose index holds only code point 65, with missing
character 65. -/
def c4handle : PF2 :=
  { initialPF2 false 65 with
      character_index := some [((65 : Int), (0, (0 : Int)))]
      data_offset := some 0
      data_io := some ⟨[0, 1, 0, 1, 0, 0, 0, 0, 0, 1, 128], 0, false⟩ }

/-- A handle with an empty index. -/
def c4handle2 : PF2 :=
  { initialPF2 false 63 with
      character_index := some []
      data_offset := some 0
      data_io := some ⟨[], 0, false⟩ }

theorem lookup_fallback_witness :
    get_char c4handle 66 = get_char c4handle 65 ∧
    get_char c4handle2 66 = .error .keyError := by
  constructor
  · exact (lookup_fallback c4handle [((65 : Int), (0, (0 : Int)))] 66
      (by decide) (by decide)).1 (0, 0) (by decide)
  · exact (lookup_fallback c4handle2 [] 66 (by decide) (by decide)).2 (by decide)

/-- C5: a magic mismatch makes `pf2Init` return the invalid handle —
a constant record in which every metadata field, the index and the
data source are unset, independent of the rest of the file contents
(no further reads) — and every lookup against that handle fails
deterministically with the `AttributeError` for the never-assigned
index. -/
theorem invalid_magic_handle (fileData : Bytes) (rm : Bool) (mc : Nat)
    (hmagic : fileData.take 12 ≠ magicBytes) :
    pf2Init fileData rm mc = .ok { initialPF2 rm mc with is_pf2 := false } ∧
    ∀ cp, get_char { initialPF2 rm mc with is_pf2 := false } cp
        = .error .attributeError := by
  refine ⟨?_, fun cp => rfl⟩
  simp only [pf2Init, ByteStream.read, List.drop_zero]
  rw [if_neg hmagic]

theorem invalid_magic_handle_witness :
    pf2Init [9, 9, 9] false 63 = .ok { initialPF2 false 63 with is_pf2 := false } ∧
    get_char { initialPF2 false 63 with is_pf2 := false } 65
      = .error .attributeError := by
  have h := invalid_magic_handle [9, 9, 9] false 63 (by decide)
  exact ⟨h.1, h.2 65⟩

/-- C7: a glyph record is decoded as the 10-byte header — width (u16),
height (u16), x_offset (s16), y_offset (s16), device_width (s16), in
that byte order — followed by a `bitmap_data` of exactly
`ceil(width*height/8)` bytes (the two final inequalities pin
`(w*h+7)/8` down as the ceiling), for all width and height values
including zero, provided the source is not truncated inside the
bitmap. -/
theorem glyph_decode_layout (b0 b1 b2 b3 b4 b5 b6 b7 b8 b9 : Nat) (rest : Bytes)
    (hrest : ((b0 <<< 8 + b1) * (b2 <<< 8 + b3) + 7) / 8 ≤ rest.length) :
    ∃ c : Character,
      decodeGlyph (b0 :: b1 :: b2 :: b3 :: b4 :: b5 :: b6 :: b7 :: b8 :: b9 :: rest)
        = .ok c ∧
      uint16be [b0, b1] = some c.width ∧
      uint16be [b2, b3] = some c.height ∧
      int16be [b4, b5] = some c.x_offset ∧
      int16be [b6, b7] = some c.y_offset ∧
      int16be [b8, b9] = some c.device_width ∧
      c.bitmap_data = rest.take ((c.width * c.height + 7) / 8) ∧
      c.bitmap_data.length = (c.width * c.height + 7) / 8 ∧
      c.width * c.height ≤ 8 * c.bitmap_data.length ∧
      8 * c.bitmap_data.length < c.width * c.height + 8 := by
  refine ⟨_, decodeGlyph_cons b0 b1 b2 b3 b4 b5 b6 b7 b8 b9 rest,
    rfl, rfl, rfl, rfl, rfl, rfl, ?_, ?_, ?_⟩
  · simpa using hrest
  · have := List.length_take
      (((b0 <<< 8 + b1) * (b2 <<< 8 + b3) + 7) / 8) rest
    simp only [this]
    omega
  · have := List.length_take
      (((b0 <<< 8 + b1) * (b2 <<< 8 + b3) + 7) / 8) rest
    simp only [this]
    omega

theorem glyph_decode_layout_witness :
    ∃ c : Character,
      decodeGlyph [0, 5, 0, 3, 0, 0, 0, 0, 0, 1, 17, 34] = .ok c ∧
      uint16be [0, 5] = some c.width ∧
      uint16be [0, 3] = some c.height ∧
      int16be [0, 0] = some c.x_offset ∧
      int16be [0, 0] = some c.y_offset ∧
      int16be [0, 1] = some c.device_width ∧
      c.bitmap_data = [17, 34].take ((c.width * c.height + 7) / 8) ∧
      c.bitmap_data.length = (c.width * c.height + 7) / 8 ∧
      c.width * c.height ≤ 8 * c.bitmap_data.length ∧
      8 * c.bitmap_data.length < c.width * c.height + 8 :=
  glyph_decode_layout 0 5 0 3 0 0 0 0 0 1 [17, 34] (by decide)

/-- C9: `close` is idempotent — if one call succeeds, a second call on
the result succeeds and changes nothing — and on a buffered
(in-memory) handle it is a no-op.  Decoded `Character` values are
plain immutable values in this embedding (as in Python, where the
glyph holds fresh `int`/`bytes` copies), so closing cannot affect
them. -/
theorem close_idempotent :
    (∀ h h' : PF2, PF2.close h = .ok h' → PF2.close h' = .ok h') ∧
    (∀ h : PF2, h.in_memory = true → PF2.close h = .ok h) := by
  constructor
  · intro h h' hc
    by_cases hm : h.in_memory = true
    · rw [PF2.close, if_pos hm] at hc
      obtain rfl : h = h' := by injection hc
      rw [PF2.close, if_pos hm]
    · rw [PF2.close, if_neg hm] at hc
      cases hd : h.data_io with
      | none => rw [hd] at hc; cases hc
      | some d =>
          rw [hd] at hc
          obtain rfl :
              ({ h with data_io := some { d with closed := true } } : PF2) = h' := by
            injection hc
          rw [PF2.close, if_neg hm]
  · intro h hm
    rw [PF2.close, if_pos hm]

/-- A streaming handle and its closed form. -/
def c9handle : PF2 :=
  { initialPF2 false 63 with
      character_index := some []
      data_offset := some 0
      data_io := some ⟨[1, 2, 3], 0, false⟩ }

def c9closed : PF2 :=
  { c9handle with data_io := some ⟨[1, 2, 3], 0, true⟩ }

/-- An in-memory handle. -/
def c9mem : PF2 :=
  { initialPF2 true 63 with
      character_index := some []
      data_offset := some (-3)
      data_io := some ⟨[1, 2, 3], 0, false⟩ }

theorem close_idempotent_witness :
    PF2.close c9closed = .ok c9closed ∧ PF2.close c9mem = .ok c9mem := by
  constructor
  · exact close_idempotent.1 c9handle c9closed (by decide)
  · exact close_idempotent.2 c9mem (by decide)

/-! ## Short-read and consumption lemmas -/

theorem get0_total (b : Bytes) (h : 1 ≤ b.length) : ∃ v, b.get? 0 = some v := by
  rcases b with _ | ⟨x, r⟩
  · simp at h
  · exact ⟨x, rfl⟩

theorem int32be_total (b : Bytes) (h : 4 ≤ b.length) : ∃ v, int32be b = some v := by
  rcases b with _ | ⟨x, _ | ⟨y, _ | ⟨z, _ | ⟨w, r⟩⟩⟩⟩
  · simp only [List.length_nil] at h; omega
  · simp only [List.length_cons, List.length_nil] at h; omega
  · simp only [List.length_cons, List.length_nil] at h; omega
  · simp only [List.length_cons, List.length_nil] at h; omega
  · exact ⟨_, int32be_some x y z w r⟩

/-- `decodeGlyph` on an input too short for the 10-byte header fails. -/
theorem decodeGlyph_short (l : Bytes) (hl : l.length < 10) :
    decodeGlyph l = .error .indexError := by
  rcases l with _ | ⟨a, _ | ⟨b, _ | ⟨c, _ | ⟨d, _ | ⟨e, _ | ⟨f, _ | ⟨g, _ | ⟨i, _ | ⟨j, _ | ⟨k, rest⟩⟩⟩⟩⟩⟩⟩⟩⟩⟩
  · rfl
  · rfl
  · rfl
  · rfl
  · rfl
  · rfl
  · rfl
  · rfl
  · rfl
  · rfl
  · simp only [List.length_cons] at hl; omega

/-- `decodeGlyph` on an input holding the full header returns a glyph
whose bitmap is whatever is available after the header, up to the
requested length. -/
theorem decodeGlyph_long (l : Bytes) (hl : 10 ≤ l.length) :
    ∃ c : Character, decodeGlyph l = .ok c ∧
      c.bitmap_data = (l.drop 10).take ((c.width * c.height + 7) / 8) := by
  rcases l with _ | ⟨a, _ | ⟨b, _ | ⟨c, _ | ⟨d, _ | ⟨e, _ | ⟨f, _ | ⟨g, _ | ⟨i, _ | ⟨j, _ | ⟨k, rest⟩⟩⟩⟩⟩⟩⟩⟩⟩⟩
  · simp only [List.length_nil] at hl; omega
  · simp only [List.length_cons, List.length_nil] at hl; omega
  · simp only [List.length_cons, List.length_nil] at hl; omega
  · simp only [List.length_cons, List.length_nil] at hl; omega
  · simp only [List.length_cons, List.length_nil] at hl; omega
  · simp only [List.length_cons, List.length_nil] at hl; omega
  · simp only [List.length_cons, List.length_nil] at hl; omega
  · simp only [List.length_cons, List.length_nil] at hl; omega
  · simp only [List.length_cons, List.length_nil] at hl; omega
  · simp only [List.length_cons, List.length_nil] at hl; omega
  · exact ⟨_, decodeGlyph_cons a b c d e f g i j k rest, rfl⟩

/-- If the stream cannot supply the `n` requested `CHIX` records,
`readIndex` fails with the codec's `IndexError`. -/
theorem readIndex_short :
    ∀ (n : Nat) (s : ByteStream) (d : List (Int × Nat × Int)),
      0 < n → s.data.length < s.pos + 9 * n →
      readIndex n s d = .error .indexError := by
  intro n
  induction n with
  | zero => intro s d h; omega
  | succ n ih =>
    intro s d _ hshort
    by_cases h4 : s.data.length < s.pos + 4
    · have : ((s.data.drop s.pos).take 4).length < 4 := by
        simp [List.length_take, List.length_drop]; omega
      simp only [readIndex, ByteStream.read]
      rw [int32be_short _ this]
    · have hq1 : ((s.data.drop s.pos).take 4).length = 4 := by
        simp [List.length_take, List.length_drop]; omega
      obtain ⟨cp, hcp⟩ := int32be_total _ (le_of_eq hq1.symm)
      simp only [readIndex, ByteStream.read]
      rw [hcp, hq1]
      by_cases h5 : s.data.length < s.pos + 5
      · have he : ((s.data.drop (s.pos + 4)).take 1) = [] := by
          have : s.data.drop (s.pos + 4) = [] :=
            List.drop_eq_nil_of_le (by omega)
          rw [this]; rfl
        rw [he]
        rfl
      · have hq2 : ((s.data.drop (s.pos + 4)).take 1).length = 1 := by
          simp [List.length_take, List.length_drop]; omega
        obtain ⟨cmp, hcmp⟩ := get0_total _ (le_of_eq hq2.symm)
        rw [hcmp, hq2]
        by_cases h9 : s.data.length < s.pos + 9
        · have : ((s.data.drop (s.pos + 4 + 1)).take 4).length < 4 := by
            simp [List.length_take, List.length_drop]; omega
          rw [int32be_short _ this]
        · have hq3 : ((s.data.drop (s.pos + 4 + 1)).take 4).length = 4 := by
            simp [List.length_take, List.length_drop]; omega
          obtain ⟨off, hoff⟩ := int32be_total _ (le_of_eq hq3.symm)
          rw [hoff, hq3]
          dsimp only
          exact ih _ _ (by omega) (by simp only [List.length_cons]; omega)

/-- With enough bytes available, `readIndex` succeeds and consumes
exactly `9 * n` bytes. -/
theorem readIndex_advance :
    ∀ (n : Nat) (s : ByteStream) (d : List (Int × Nat × Int)),
      s.pos + 9 * n ≤ s.data.length →
      ∃ d', readIndex n s d = .ok (d', { s with pos := s.pos + 9 * n }) := by
  intro n
  induction n with
  | zero =>
    intro s d _
    exact ⟨d, by simp [readIndex]⟩
  | succ n ih =>
    intro s d hav
    have hq1 : ((s.data.drop s.pos).take 4).length = 4 := by
      simp [List.length_take, List.length_drop]; omega
    obtain ⟨cp, hcp⟩ := int32be_total _ (le_of_eq hq1.symm)
    have hq2 : ((s.data.drop (s.pos + 4)).take 1).length = 1 := by
      simp [List.length_take, List.length_drop]; omega
    obtain ⟨cmp, hcmp⟩ := get0_total _ (le_of_eq hq2.symm)
    have hq3 : ((s.data.drop (s.pos + 4 + 1)).take 4).length = 4 := by
      simp [List.length_take, List.length_drop]; omega
    obtain ⟨off, hoff⟩ := int32be_total _ (le_of_eq hq3.symm)
    obtain ⟨d', hd'⟩ := ih { s with pos := s.pos + 4 + 1 + 4 }
      (dinsert d cp (cmp, off)) (by simp; omega)
    dsimp only at hd'
    refine ⟨d', ?_⟩
    simp only [readIndex, ByteStream.read]
    rw [hcp, hq1, hcmp, hq2, hoff, hq3]
    dsimp only
    rw [hd']
    have harith : s.pos + 4 + 1 + 4 + 9 * n = s.pos + 9 * (n + 1) := by omega
    rw [harith]

/-- If fewer than the 8 tag+length bytes remain, a scan iteration
fails with the codec's `IndexError`. -/
theorem scanLoop_short (rm : Bool) (fuel : Nat) (self : PF2) (s : ByteStream)
    (hshort : s.data.length < s.pos + 8) :
    scanLoop rm (fuel + 1) self s = .error .indexError := by
  have hlt : ((s.data.drop (s.pos + ((s.data.drop s.pos).take 4).length)).take 4).length < 4 := by
    simp [List.length_take, List.length_drop]; omega
  simp only [scanLoop, ByteStream.read]
  rw [int32be_short _ hlt]

/-- C8 (amended): a read that consumes fewer bytes than required fails
the current operation with a propagated error in all places except the
bitmap read: too few bytes for the 10-byte glyph header fail the
lookup; too few bytes for the requested `CHIX` records or for a
section's tag+length header fail the scan; but a glyph whose header is
complete is returned normally, its `bitmap_data` silently truncated to
the bytes available. -/
theorem short_read_behavior :
    (∀ l : Bytes, l.length < 10 → decodeGlyph l = .error .indexError) ∧
    (∀ l : Bytes, 10 ≤ l.length → ∃ c : Character, decodeGlyph l = .ok c ∧
        c.bitmap_data = (l.drop 10).take ((c.width * c.height + 7) / 8)) ∧
    (∀ (n : Nat) (s : ByteStream) (d : List (Int × Nat × Int)),
        0 < n → s.data.length < s.pos + 9 * n →
        readIndex n s d = .error .indexError) ∧
    (∀ (rm : Bool) (fuel : Nat) (self : PF2) (s : ByteStream),
        s.data.length < s.pos + 8 →
        scanLoop rm (fuel + 1) self s = .error .indexError) :=
  ⟨decodeGlyph_short, decodeGlyph_long, readIndex_short, scanLoop_short⟩

theorem short_read_behavior_witness :
    decodeGlyph [0, 1] = .error .indexError ∧
    (∃ c : Character, decodeGlyph [0, 1, 0, 2, 0, 0, 0, 0, 0, 0] = .ok c ∧
        c.bitmap_data = (([0, 1, 0, 2, 0, 0, 0, 0, 0, 0] : Bytes).drop 10).take
          ((c.width * c.height + 7) / 8)) ∧
    readIndex 1 ⟨[5], 0, false⟩ [] = .error .indexError ∧
    scanLoop false 1 (initialPF2 false 63) ⟨[78, 65], 0, false⟩
      = .error .indexError :=
  ⟨short_read_behavior.1 [0, 1] (by decide),
   short_read_behavior.2.1 [0, 1, 0, 2, 0, 0, 0, 0, 0, 0] (by decide),
   short_read_behavior.2.2.1 1 ⟨[5], 0, false⟩ [] (by decide) (by decide),
   short_read_behavior.2.2.2 false 0 (initialPF2 false 63) ⟨[78, 65], 0, false⟩
     (by decide)⟩

/-- `readIndex` only moves the cursor: the underlying bytes and the
closed flag of the stream it returns are those of its input. -/
theorem readIndex_data :
    ∀ (n : Nat) (s : ByteStream) (d d' : List (Int × Nat × Int)) (s' : ByteStream),
      readIndex n s d = .ok (d', s') → s'.data = s.data ∧ s'.closed = s.closed := by
  intro n
  induction n with
  | zero =>
    intro s d d' s' h
    simp only [readIndex] at h
    injection h with h1
    cases h1
    exact ⟨rfl, rfl⟩
  | succ n ih =>
    intro s d d' s' h
    simp only [readIndex, ByteStream.read] at h
    split at h
    · cases h
    · split at h
      · cases h
      · split at h
        · cases h
        · obtain ⟨ha, hb⟩ := ih _ _ _ _ h
          exact ⟨ha, hb⟩

/-- In streaming mode (`read_to_mem = false`) the scan returns a
handle whose data source is the original stream itself — same
underlying bytes, same closed flag — with offset correction zero. -/
theorem scanLoop_stream :
    ∀ (fuel : Nat) (self : PF2) (s : ByteStream) (h : PF2),
      scanLoop false fuel self s = .ok h →
      h.data_offset = some 0 ∧ ∃ p, h.data_io = some ⟨s.data, p, s.closed⟩ := by
  intro fuel
  induction fuel with
  | zero => intro self s h hh; cases hh
  | succ fuel ih =>
    intro self s h hh
    unfold scanLoop at hh
    simp only [ByteStream.read] at hh
    split at hh
    · cases hh
    · split at hh
      · split at hh
        · cases hh
        · rename_i d s2 heq
          have hd := readIndex_data _ _ _ _ _ heq
          obtain ⟨h1, p, h2⟩ := ih _ _ _ hh
          refine ⟨h1, p, ?_⟩
          rw [h2, hd.1, hd.2]
      · split at hh
        · split at hh
          · rename_i hfalse
            exact absurd hfalse (by simp)
          · cases hh
            exact ⟨rfl, _, rfl⟩
        · split at hh
          · cases hh
          · obtain ⟨h1, p, h2⟩ := ih _ _ _ hh
            exact ⟨h1, p, h2⟩

/-- C3 (amended): index offsets are interpreted as absolute file
offsets.  A handle opened in streaming mode has offset correction
zero and its data source is the file stream itself (position 0 = start
of the file), so a lookup whose code point has an index entry with
nonnegative offset `k` reads the glyph record starting at the `k`-th
byte of the file, not of the data section. -/
theorem offsets_absolute (fileData : Bytes) (mc : Nat) (h : PF2)
    (idx : List (Int × Nat × Int)) (cp cmp : Nat) (off : Int)
    (hopen : pf2Init fileData false mc = .ok h)
    (hidx : h.character_index = some idx)
    (hent : dget idx (cp : Int) = some (cmp, off))
    (hoff : 0 ≤ off) :
    h.data_offset = some 0 ∧
    get_char h cp = decodeGlyph (fileData.drop off.toNat) := by
  unfold pf2Init at hopen
  simp only [ByteStream.read] at hopen
  split at hopen
  · obtain ⟨hdo, p, hio⟩ := scanLoop_stream _ _ _ _ hopen
    dsimp only at hio
    refine ⟨hdo, ?_⟩
    simp only [get_char, hidx, hent, hio, hdo, ByteStream.seek,
      Bool.false_eq_true, false_or, Int.add_zero,
      if_neg (not_lt.mpr hoff)]
  · cases hopen
    simp [initialPF2] at hidx

/-- The streaming handle that opening `c3file` produces. -/
def c3handle : PF2 :=
  { initialPF2 false 63 with
      character_index := some [((66 : Int), (0, (45 : Int)))]
      data_offset := some 0
      data_io := some ⟨c3file, 37, false⟩ }

theorem offsets_absolute_witness :
    c3handle.data_offset = some 0 ∧
    get_char c3handle 66 = decodeGlyph (c3file.drop (45 : Int).toNat) :=
  offsets_absolute c3file 63 c3handle [((66 : Int), (0, (45 : Int)))] 66 0 45
    (by decide) (by decide) (by decide) (by decide)

/-- C10: after dispatching a `CHIX` section whose parsed length is
`L`, the scanner has consumed exactly the 8 tag+length bytes plus
`9 * (L // 9)` payload bytes: the next loop iteration starts at that
position, so when `L` is not a multiple of 9 the leftover `L mod 9`
bytes are not skipped and are consumed as part of the next iteration's
4-byte tag read, shifting the framing of every subsequent section. -/
theorem chix_consumption (rm : Bool) (fuel : Nat) (self : PF2) (s : ByteStream)
    (L : Int)
    (htag : (s.data.drop s.pos).take 4 = chixTag)
    (hlen : int32be ((s.data.drop (s.pos + 4)).take 4) = some L)
    (hav : s.pos + 8 + 9 * (L.fdiv 9).toNat ≤ s.data.length) :
    ∃ d, scanLoop rm (fuel + 1) self s
        = scanLoop rm fuel { self with character_index := some d }
            { s with pos := s.pos + 8 + 9 * (L.fdiv 9).toNat } := by
  have hq1 : ((s.data.drop s.pos).take 4).length = 4 := by rw [htag]; rfl
  have hq2 : ((s.data.drop (s.pos + 4)).take 4).length = 4 := by
    have hle : ((s.data.drop (s.pos + 4)).take 4).length ≤ 4 := by
      simp [List.length_take]
    by_contra hc
    rw [int32be_short _ (by omega)] at hlen
    cases hlen
  obtain ⟨d, hd⟩ := readIndex_advance ((L.fdiv 9).toNat)
      { s with pos := s.pos + 4 + 4 } [] (by dsimp only; omega)
  dsimp only at hd
  refine ⟨d, ?_⟩
  conv_lhs => rw [scanLoop]
  simp only [ByteStream.read]
  rw [hq1, hlen]
  dsimp only
  rw [htag, if_pos rfl, hq2, hd]

/-- A stream holding a `CHIX` section of declared length 10 (one
9-byte record plus one leftover byte) followed by further bytes. -/
def c10stream : ByteStream :=
  ⟨chixTag ++ [0, 0, 0, 10] ++ [0, 0, 0, 65, 0, 0, 0, 0, 1, 99] ++
    [1, 2, 3, 4, 5, 6, 7, 8], 0, false⟩

theorem chix_consumption_witness :
    ∃ d, scanLoop false 2 (initialPF2 false 63) c10stream
        = scanLoop false 1 { initialPF2 false 63 with character_index := some d }
            { c10stream with pos := 17 } :=
  chix_consumption false 1 (initialPF2 false 63) c10stream 10
    (by decide) (by decide) (by decide)
